import Mathlib

/- Verification of the terminal subsystem of the rustfm repository
   (src/terminal.rs).  Strings are modelled as lists of characters, the
   pseudo-terminal writer as a ghost log of written byte sequences, and
   the external pty library calls of spawn_shell as an outcome oracle.
   Each definition is a direct translation of the corresponding Rust
   function. -/

namespace Rustfm

/- A Rust String or str slice, modelled as a list of characters. -/
abbrev Str := List Char

/- Rust char::is_whitespace - the Unicode White_Space property. -/
def rustIsWhitespace (c : Char) : Bool :=
  let n := c.toNat
  decide ((9 ≤ n ∧ n ≤ 13) ∨ n = 32 ∨ n = 0x85 ∨ n = 0xA0 ∨ n = 0x1680 ∨
    (0x2000 ≤ n ∧ n ≤ 0x200A) ∨ n = 0x2028 ∨ n = 0x2029 ∨ n = 0x202F ∨
    n = 0x205F ∨ n = 0x3000)

/- Rust str::trim - drop leading and trailing whitespace. -/
def rustTrim (s : Str) : Str :=
  ((s.dropWhile rustIsWhitespace).reverse.dropWhile rustIsWhitespace).reverse

/- The inner loop of strip_ansi_escapes (terminal.rs lines 319 to 324):
   consume and discard characters up to and including the first ASCII
   alphabetic character. -/
def consumeCsi : Str → Str
  | [] => []
  | c :: rest => if c.isAlpha then rest else consumeCsi rest

/- strip_ansi_escapes (terminal.rs lines 308 to 332).  An escape
   character followed by an opening bracket starts a CSI sequence that is
   discarded through its alphabetic terminator; an escape character not
   followed by an opening bracket is dropped on its own and scanning
   resumes at the very next character; every other character is copied. -/
def strip_ansi_escapes : Str → Str
  | [] => []
  | '\x1b' :: '[' :: rest => strip_ansi_escapes (consumeCsi rest)
  | '\x1b' :: rest => strip_ansi_escapes rest
  | c :: rest => c :: strip_ansi_escapes rest
termination_by l => l.length
decreasing_by
  · have h : ∀ l : Str, (consumeCsi l).length ≤ l.length := by
      intro l
      induction l with
      | nil => simp [consumeCsi]
      | cons c r ih =>
        simp only [consumeCsi]
        split
        · simp
        · exact Nat.le_succ_of_le ih
    have := h rest
    simp only [List.length_cons]
    omega
  · simp [List.length_cons]
  · simp [List.length_cons]

/- The push-or-extend step of process_output (terminal.rs lines 155 to
   160), applied after the earlier segments of the fragment have been
   pushed: append the segment to the last entry when one exists,
   otherwise push it as a new entry. -/
def appendToLast : List Str → Str → List Str
  | [], seg => [seg]
  | [last], seg => [last ++ seg]
  | x :: xs, seg => x :: appendToLast xs seg

/- The line-splitting loop of process_output (terminal.rs lines 152 to
   164): split the fragment on newlines; when the fragment ends with a
   newline every segment is pushed as its own entry, otherwise the final
   segment goes through the push-or-extend step. -/
def processLines (scrollback : List Str) (output : Str) : List Str :=
  let lines := List.splitOn '\n' output
  if output.getLast? = some '\n' then
    scrollback ++ lines
  else
    appendToLast (scrollback ++ lines.dropLast) (lines.getLast?.getD [])

/- The cap loop of process_output (terminal.rs lines 167 to 169):
   while the buffer holds more than 1000 lines, remove the front line. -/
def trimScrollback (sb : List Str) : List Str :=
  if h : sb.length > 1000 then trimScrollback sb.tail else sb
termination_by sb.length
decreasing_by
  simp only [List.length_tail]
  omega

/- process_output (terminal.rs lines 149 to 170). -/
def process_output (scrollback : List Str) (output : Str) : List Str :=
  trimScrollback (processLines scrollback output)

/- The state of a TerminalPanel (terminal.rs lines 11 to 23).  The
   writer handle is modelled by a presence flag together with a ghost
   log of every byte sequence written to it; fields that exist purely
   for rendering are omitted. -/
structure TermState where
  current_dir : Str
  scrollback : List Str
  input_buffer : Str
  pty_writer : Bool
  pty_pair : Bool
  command_history : List Str
  history_index : Option Nat
  written : List Str
deriving DecidableEq

/- The field initialisation of TerminalPanel::new (terminal.rs lines 29
   to 41), before spawn_shell runs. -/
def initTermState (dir : Str) : TermState :=
  { current_dir := dir
    scrollback := []
    input_buffer := []
    pty_writer := false
    pty_pair := false
    command_history := []
    history_index := none
    written := [] }

/- The recurring pattern - if let Some(writer) = &mut self.pty_writer
   followed by write_all and flush - with the write recorded in the
   ghost log.  Failed writes are swallowed in the source, so the log
   records the bytes handed to write_all. -/
def writeToPty (st : TermState) (bytes : Str) : TermState :=
  if st.pty_writer then { st with written := st.written ++ [bytes] } else st

/- TerminalPanel::set_directory (terminal.rs lines 47 to 57). -/
def set_directory (st : TermState) (path : Str) : TermState :=
  if st.current_dir ≠ path then
    writeToPty { st with current_dir := path }
      ("cd \"".toList ++ path ++ "\"\n".toList)
  else st

/- TerminalPanel::execute_command (terminal.rs lines 172 to 198). -/
def execute_command (st : TermState) : TermState :=
  let command := st.input_buffer
  if rustTrim command = [] then
    writeToPty st "\n".toList
  else
    let st1 := { st with command_history := st.command_history ++ [command] }
    let st2 :=
      if st1.command_history.length > 100 then
        { st1 with command_history := st1.command_history.tail }
      else st1
    let st3 := { st2 with history_index := none }
    let st4 := writeToPty st3 (command ++ "\n".toList)
    { st4 with input_buffer := [] }

/- Typing a command into the input line and pressing Enter. -/
def submitCmd (st : TermState) (cmd : Str) : TermState :=
  execute_command { st with input_buffer := cmd }

/- TerminalPanel::history_prev (terminal.rs lines 200 to 216). -/
def history_prev (st : TermState) : TermState :=
  if st.command_history.isEmpty then st
  else
    match st.history_index with
    | none =>
        { st with
          history_index := some (st.command_history.length - 1)
          input_buffer := st.command_history.getLast?.getD [] }
    | some idx =>
        if idx > 0 then
          { st with
            history_index := some (idx - 1)
            input_buffer := st.command_history.getD (idx - 1) [] }
        else st

/- TerminalPanel::history_next (terminal.rs lines 218 to 230). -/
def history_next (st : TermState) : TermState :=
  match st.history_index with
  | some idx =>
      if idx < st.command_history.length - 1 then
        { st with
          history_index := some (idx + 1)
          input_buffer := st.command_history.getD (idx + 1) [] }
      else
        { st with history_index := none, input_buffer := [] }
  | none => st

/- The Ctrl C handler of TerminalPanel::render (terminal.rs lines 295 to
   301): write the single interrupt byte 0x03. -/
def interrupt (st : TermState) : TermState :=
  writeToPty st ['\x03']

/- Outcome oracle for the external portable_pty calls made by
   spawn_shell: which of the four fallible calls fails first, carrying
   the display text of the error value. -/
inductive SpawnOutcome where
  | ptyOpenErr (msg : Str)
  | shellSpawnErr (msg : Str)
  | writerErr (msg : Str)
  | readerErr (msg : Str)
  | success
deriving DecidableEq

/- The diagnostic lines pushed by spawn_shell (terminal.rs lines 70, 91,
   100, 111). -/
def msgPtyOpen (e : Str) : Str := "Failed to open PTY: ".toList ++ e

def msgShellSpawn (e : Str) : Str := "Failed to spawn shell: ".toList ++ e

def msgWriter (e : Str) : Str := "Failed to get PTY writer: ".toList ++ e

def msgReader (e : Str) : Str := "Failed to get PTY reader: ".toList ++ e

/- The welcome line pushed on success (terminal.rs lines 136 to 139). -/
def msgWelcome (dir : Str) : Str :=
  "🖥️  Terminal ready in: ".toList ++ dir ++ "\n".toList

/- TerminalPanel::spawn_shell (terminal.rs lines 59 to 140).  Each
   failure pushes one diagnostic line and returns early.  The writer
   handle is installed at line 105, BEFORE the reader clone is
   attempted, so a reader failure leaves the writer installed. -/
def spawn_shell (st : TermState) (outcome : SpawnOutcome) : TermState :=
  match outcome with
  | .ptyOpenErr e => { st with scrollback := st.scrollback ++ [msgPtyOpen e] }
  | .shellSpawnErr e => { st with scrollback := st.scrollback ++ [msgShellSpawn e] }
  | .writerErr e => { st with scrollback := st.scrollback ++ [msgWriter e] }
  | .readerErr e =>
      { st with
        pty_writer := true
        scrollback := st.scrollback ++ [msgReader e] }
  | .success =>
      { st with
        pty_writer := true
        pty_pair := true
        scrollback := st.scrollback ++ [msgWelcome st.current_dir] }

/- The history invariant of claim C10: an installed cursor is a valid
   index into the command history. -/
def histInv (st : TermState) : Bool :=
  match st.history_index with
  | none => true
  | some i => decide (i < st.command_history.length)

/- Demonstration states for the command-history scenario: the panel
   state after submitting ls, pwd and echo hi in that order. -/
def histDemo3 : TermState :=
  submitCmd (submitCmd (submitCmd (initTermState []) "ls".toList) "pwd".toList)
    "echo hi".toList

/- A panel state whose command history is exactly at the 100-entry cap,
   with a pending nonempty command in the input line. -/
def demoFullHistory : TermState :=
  { initTermState [] with
    command_history := List.replicate 100 "x".toList
    input_buffer := "y".toList }


theorem consumeCsi_length_le (l : Str) : (consumeCsi l).length ≤ l.length := by
  induction l with
  | nil => simp [consumeCsi]
  | cons c r ih =>
    simp only [consumeCsi]
    split
    · simp
    · exact Nat.le_succ_of_le ih

theorem strip_length_le (l : Str) : (strip_ansi_escapes l).length ≤ l.length := by
  induction l using strip_ansi_escapes.induct with
  | case1 => simp [strip_ansi_escapes]
  | case2 rest ih =>
    rw [strip_ansi_escapes.eq_2]
    have := consumeCsi_length_le rest
    simp only [List.length_cons]
    omega
  | case3 rest h ih =>
    rw [strip_ansi_escapes.eq_3 rest h]
    simp only [List.length_cons]
    omega
  | case4 c rest h1 h2 ih =>
    rw [strip_ansi_escapes.eq_4 c rest h1 h2]
    simp only [List.length_cons]
    omega

theorem strip_esc_not_mem (l : Str) : '\x1b' ∉ strip_ansi_escapes l := by
  induction l using strip_ansi_escapes.induct with
  | case1 => simp [strip_ansi_escapes]
  | case2 rest ih => rw [strip_ansi_escapes.eq_2]; exact ih
  | case3 rest h ih => rw [strip_ansi_escapes.eq_3 rest h]; exact ih
  | case4 c rest h1 h2 ih =>
    rw [strip_ansi_escapes.eq_4 c rest h1 h2]
    intro hmem
    rcases List.mem_cons.mp hmem with he | he
    · exact h2 he.symm
    · exact ih he

theorem strip_eq_self_of_not_mem (l : Str) (hl : '\x1b' ∉ l) :
    strip_ansi_escapes l = l := by
  induction l using strip_ansi_escapes.induct with
  | case1 => simp [strip_ansi_escapes]
  | case2 rest ih => exact absurd (List.mem_cons_self _ _) hl
  | case3 rest h ih => exact absurd (List.mem_cons_self _ _) hl
  | case4 c rest h1 h2 ih =>
    rw [strip_ansi_escapes.eq_4 c rest h1 h2]
    have : '\x1b' ∉ rest := fun hm => hl (List.mem_cons_of_mem _ hm)
    rw [ih this]

/-- Claim C3: for every input the sanitizer output is no longer than the
input and contains no escape character; an input without the escape
character is returned unchanged; and the red Hello sample is reduced to
Hello. -/
theorem c3_sanitizer_properties :
    (∀ l : Str, (strip_ansi_escapes l).length ≤ l.length ∧
      '\x1b' ∉ strip_ansi_escapes l)
    ∧ (∀ l : Str, '\x1b' ∉ l → strip_ansi_escapes l = l)
    ∧ strip_ansi_escapes "\x1b[31mHello\x1b[0m".toList = "Hello".toList :=
  ⟨fun l => ⟨strip_length_le l, strip_esc_not_mem l⟩,
   strip_eq_self_of_not_mem,
   by simp [strip_ansi_escapes, consumeCsi]⟩

theorem c3_sanitizer_properties_witness :
    ('\x1b' ∉ "ok".toList) ∧ strip_ansi_escapes "ok".toList = "ok".toList :=
  ⟨by decide, c3_sanitizer_properties.2.1 "ok".toList (by decide)⟩

/-- Claim C4 counterexample: on the input ESC followed by X, the
sanitizer keeps the X - the character directly following a lone escape
character is not dropped, refuting the claim. -/
theorem c4_counterexample_following_char_kept :
    strip_ansi_escapes "\x1bXhello".toList = "Xhello".toList ∧
    'X' ∈ strip_ansi_escapes "\x1bXhello".toList := by
  have h : strip_ansi_escapes "\x1bXhello".toList = "Xhello".toList := by
    simp [strip_ansi_escapes, consumeCsi]
  exact ⟨h, by rw [h]; decide⟩

/-- Claim C4 amended: when the escape character is followed by a
character other than an opening bracket, only the escape character
itself is dropped; scanning resumes at the following character, which is
processed normally. -/
theorem c4_amended_lone_escape_dropped (c : Char) (rest : Str) (h : c ≠ '[') :
    strip_ansi_escapes ('\x1b' :: c :: rest) = strip_ansi_escapes (c :: rest) := by
  rw [strip_ansi_escapes.eq_3]
  intro r hr
  injection hr with h1 h2
  exact h h1

theorem c4_amended_lone_escape_dropped_witness :
    ('X' ≠ '[') ∧
    strip_ansi_escapes ('\x1b' :: 'X' :: []) = strip_ansi_escapes ('X' :: []) :=
  ⟨by decide, c4_amended_lone_escape_dropped 'X' [] (by decide)⟩


theorem trimScrollback_eq_drop (sb : List Str) :
    trimScrollback sb = sb.drop (sb.length - 1000) := by
  induction sb using trimScrollback.induct with
  | case1 x h ih =>
    rw [trimScrollback]
    rw [dif_pos h, ih]
    cases x with
    | nil => simp at h
    | cons a t =>
      have ht : t.length + 1 - 1000 = (t.length - 1000) + 1 := by
        simp only [List.length_cons] at h
        omega
      simp only [List.tail_cons, List.length_cons, ht, List.drop_succ_cons]
  | case2 x h =>
    rw [trimScrollback, dif_neg h]
    have h0 : x.length - 1000 = 0 := by omega
    rw [h0, List.drop_zero]

theorem process_output_eq_drop (sb : List Str) (o : Str) :
    process_output sb o =
      (processLines sb o).drop ((processLines sb o).length - 1000) := by
  unfold process_output
  rw [trimScrollback_eq_drop]

theorem process_output_length_le (sb : List Str) (o : Str) :
    (process_output sb o).length ≤ 1000 := by
  rw [process_output_eq_drop, List.length_drop]
  omega

theorem foldl_process_output_length_le (frags : List Str) (sb : List Str)
    (h : sb.length ≤ 1000) : (frags.foldl process_output sb).length ≤ 1000 := by
  induction frags generalizing sb with
  | nil => exact h
  | cons f fs ih =>
    simp only [List.foldl_cons]
    exact ih _ (process_output_length_le sb f)

/-- Claim C8: after every append the scrollback never exceeds 1000 lines;
the result of an append is exactly the freshly built line list with its
front dropped down to the cap, hence a suffix of it - eviction is oldest
first and preserves the relative order of the surviving lines; folding
any fragment sequence from the empty buffer stays within the cap. -/
theorem c8_scrollback_cap :
    (∀ (sb : List Str) (o : Str), (process_output sb o).length ≤ 1000)
    ∧ (∀ (sb : List Str) (o : Str), process_output sb o =
        (processLines sb o).drop ((processLines sb o).length - 1000))
    ∧ (∀ (sb : List Str) (o : Str),
        (process_output sb o).IsSuffix (processLines sb o))
    ∧ (∀ frags : List Str, (frags.foldl process_output []).length ≤ 1000) :=
  ⟨process_output_length_le, process_output_eq_drop,
   fun sb o => by
     rw [process_output_eq_drop]
     exact ⟨(processLines sb o).take _, List.take_append_drop _ _⟩,
   fun frags => foldl_process_output_length_le frags [] (by simp)⟩

/-- Claim C1: code bug.  Appending the fragment partial and then the
fragment space line newline to an empty scrollback yields the three
entries partial, space line and the empty line - not the single
completed line partial line that the specification promises. -/
theorem c1_partial_line_bug_eval :
    process_output (process_output [] "partial".toList) " line\n".toList =
      ["partial".toList, " line".toList, []] ∧
    process_output (process_output [] "partial".toList) " line\n".toList ≠
      ["partial line".toList] := by
  refine ⟨?_, ?_⟩ <;> · simp only [process_output_eq_drop]; decide

/-- Claim C2: code bug.  Appending a newline b newline c and then
newline d to an empty scrollback yields the entries a, bc and d - the
trailing segment c of the first fragment is merged into the line b
completed by that same fragment - not the four lines a, b, c, d that the
specification promises. -/
theorem c2_split_lines_bug_eval :
    process_output (process_output [] "a\nb\nc".toList) "\nd".toList =
      ["a".toList, "bc".toList, "d".toList] ∧
    process_output (process_output [] "a\nb\nc".toList) "\nd".toList ≠
      ["a".toList, "b".toList, "c".toList, "d".toList] := by
  refine ⟨?_, ?_⟩ <;> · simp only [process_output_eq_drop]; decide


theorem writeToPty_history_index (st : TermState) (b : Str) :
    (writeToPty st b).history_index = st.history_index := by
  unfold writeToPty
  split <;> rfl

theorem writeToPty_command_history (st : TermState) (b : Str) :
    (writeToPty st b).command_history = st.command_history := by
  unfold writeToPty
  split <;> rfl

theorem writeToPty_written_of_not_writer (st : TermState) (b : Str)
    (h : st.pty_writer = false) : (writeToPty st b).written = st.written := by
  unfold writeToPty
  rw [h]
  rfl

theorem writeToPty_of_not_writer (st : TermState) (b : Str)
    (h : st.pty_writer = false) : writeToPty st b = st := by
  unfold writeToPty
  rw [h]
  rfl

theorem execute_command_history_index (st : TermState)
    (h : rustTrim st.input_buffer ≠ []) :
    (execute_command st).history_index = none := by
  unfold execute_command
  simp only [h, if_false, reduceIte]
  rw [writeToPty_history_index]

/-- Claim C5: after submitting ls, pwd and echo hi, one recall-previous
yields echo hi, a second yields pwd, a following recall-next yields echo
hi, and one more recall-next clears the cursor and the input line; and
submitting any command whose trimmed text is nonempty resets the cursor
to none. -/
theorem c5_history_recall_scenario :
    (history_prev histDemo3).input_buffer = "echo hi".toList
    ∧ (history_prev (history_prev histDemo3)).input_buffer = "pwd".toList
    ∧ (history_next (history_prev (history_prev histDemo3))).input_buffer =
        "echo hi".toList
    ∧ (history_next (history_next (history_prev (history_prev histDemo3)))).history_index
        = none
    ∧ (history_next (history_next (history_prev (history_prev histDemo3)))).input_buffer
        = []
    ∧ (∀ (st : TermState) (cmd : Str), rustTrim cmd ≠ [] →
        (submitCmd st cmd).history_index = none) :=
  ⟨by decide, by decide, by decide, by decide, by decide,
   fun st cmd h => execute_command_history_index _ h⟩

theorem c5_history_recall_scenario_witness :
    rustTrim "ls".toList ≠ [] ∧
    (submitCmd (initTermState []) "ls".toList).history_index = none :=
  ⟨by decide, c5_history_recall_scenario.2.2.2.2.2 _ _ (by decide)⟩



/-- Claim C6: when a writer is attached and the requested path differs
from the tracked directory, set_directory writes exactly the bytes cd,
space, double quote, the path, double quote, newline; when the path
equals the tracked directory it does nothing at all; and two consecutive
calls with the same path write the command exactly once. -/
theorem c6_change_directory_formatting :
    (∀ (st : TermState) (path : Str), st.pty_writer = true →
      st.current_dir ≠ path →
      (set_directory st path).written =
        st.written ++ ["cd \"".toList ++ path ++ "\"\n".toList])
    ∧ (∀ (st : TermState) (path : Str), st.current_dir = path →
        set_directory st path = st)
    ∧ (∀ (st : TermState) (path : Str), st.pty_writer = true →
        st.current_dir ≠ path →
        (set_directory (set_directory st path) path).written =
          st.written ++ ["cd \"".toList ++ path ++ "\"\n".toList]) := by
  have hwrite : ∀ (st : TermState) (path : Str), st.pty_writer = true →
      st.current_dir ≠ path →
      set_directory st path =
        { st with current_dir := path,
                  written := st.written ++
                    ["cd \"".toList ++ path ++ "\"\n".toList] } := by
    intro st path hw hne
    unfold set_directory writeToPty
    rw [if_pos hne]
    simp only [hw, if_true]
  have hsame : ∀ (st : TermState) (path : Str), st.current_dir = path →
      set_directory st path = st := by
    intro st path heq
    unfold set_directory
    rw [if_neg (by simp [heq])]
  refine ⟨fun st path hw hne => by rw [hwrite st path hw hne], hsame, ?_⟩
  intro st path hw hne
  rw [hwrite st path hw hne, hsame _ path rfl]

theorem c6_change_directory_formatting_witness :
    ({ initTermState "/home".toList with pty_writer := true } : TermState).pty_writer = true ∧
    ({ initTermState "/home".toList with pty_writer := true } : TermState).current_dir ≠ "/tmp/My Dir".toList ∧
    (set_directory { initTermState "/home".toList with pty_writer := true } "/tmp/My Dir".toList).written =
      [] ++ ["cd \"".toList ++ "/tmp/My Dir".toList ++ "\"\n".toList] ∧
    (set_directory (set_directory { initTermState "/home".toList with pty_writer := true } "/tmp/My Dir".toList) "/tmp/My Dir".toList).written =
      [] ++ ["cd \"".toList ++ "/tmp/My Dir".toList ++ "\"\n".toList] :=
  ⟨by decide, by decide,
   c6_change_directory_formatting.1 _ _ (by decide) (by decide),
   c6_change_directory_formatting.2.2 _ _ (by decide) (by decide)⟩


theorem execute_command_written_of_not_writer (st : TermState)
    (h : st.pty_writer = false) :
    (execute_command st).written = st.written := by
  by_cases h1 : rustTrim st.input_buffer = [] <;>
    by_cases h2 : 100 < st.command_history.length + 1 <;>
      simp [execute_command, writeToPty, h, h1, h2, apply_ite TermState.pty_writer]

/-- Claim C7 counterexample: when session establishment fails at the
reader-acquisition point, the writer handle has already been installed
and a subsequent interrupt call writes the interrupt byte - the writer
is not left unset and interrupt is not a no-op, refuting the claim for
that failure point. -/
theorem c7_counterexample_reader_failure :
    (spawn_shell (initTermState []) (SpawnOutcome.readerErr "x".toList)).pty_writer
      = true ∧
    (interrupt (spawn_shell (initTermState [])
        (SpawnOutcome.readerErr "x".toList))).written = [['\x03']] := by
  refine ⟨rfl, ?_⟩
  decide

/-- Claim C7 amended: a failure at pty open, shell spawn or writer
acquisition appends exactly one diagnostic line, leaves the writer
unset, and subsequent interrupt and command submission write nothing; a
failure at reader acquisition also appends exactly one diagnostic line,
but the writer handle has already been installed at that point, so it is
not left unset. -/
theorem c7_amended_spawn_failures :
    (∀ (st : TermState) (e : Str), st.pty_writer = false →
      (spawn_shell st (SpawnOutcome.ptyOpenErr e)).scrollback =
          st.scrollback ++ [msgPtyOpen e]
        ∧ (spawn_shell st (SpawnOutcome.ptyOpenErr e)).pty_writer = false
        ∧ interrupt (spawn_shell st (SpawnOutcome.ptyOpenErr e)) =
            spawn_shell st (SpawnOutcome.ptyOpenErr e)
        ∧ (execute_command (spawn_shell st (SpawnOutcome.ptyOpenErr e))).written =
            st.written)
    ∧ (∀ (st : TermState) (e : Str), st.pty_writer = false →
      (spawn_shell st (SpawnOutcome.shellSpawnErr e)).scrollback =
          st.scrollback ++ [msgShellSpawn e]
        ∧ (spawn_shell st (SpawnOutcome.shellSpawnErr e)).pty_writer = false
        ∧ interrupt (spawn_shell st (SpawnOutcome.shellSpawnErr e)) =
            spawn_shell st (SpawnOutcome.shellSpawnErr e)
        ∧ (execute_command (spawn_shell st (SpawnOutcome.shellSpawnErr e))).written =
            st.written)
    ∧ (∀ (st : TermState) (e : Str), st.pty_writer = false →
      (spawn_shell st (SpawnOutcome.writerErr e)).scrollback =
          st.scrollback ++ [msgWriter e]
        ∧ (spawn_shell st (SpawnOutcome.writerErr e)).pty_writer = false
        ∧ interrupt (spawn_shell st (SpawnOutcome.writerErr e)) =
            spawn_shell st (SpawnOutcome.writerErr e)
        ∧ (execute_command (spawn_shell st (SpawnOutcome.writerErr e))).written =
            st.written)
    ∧ (∀ (st : TermState) (e : Str),
      (spawn_shell st (SpawnOutcome.readerErr e)).scrollback =
          st.scrollback ++ [msgReader e]
        ∧ (spawn_shell st (SpawnOutcome.readerErr e)).pty_writer = true) := by
  refine ⟨?_, ?_, ?_, ?_⟩
  · intro st e hw
    refine ⟨rfl, hw, ?_, ?_⟩
    · exact writeToPty_of_not_writer _ _ hw
    · exact execute_command_written_of_not_writer _ hw
  · intro st e hw
    refine ⟨rfl, hw, ?_, ?_⟩
    · exact writeToPty_of_not_writer _ _ hw
    · exact execute_command_written_of_not_writer _ hw
  · intro st e hw
    refine ⟨rfl, hw, ?_, ?_⟩
    · exact writeToPty_of_not_writer _ _ hw
    · exact execute_command_written_of_not_writer _ hw
  · intro st e
    exact ⟨rfl, rfl⟩

theorem c7_amended_spawn_failures_witness :
    (initTermState []).pty_writer = false ∧
    (spawn_shell (initTermState []) (SpawnOutcome.ptyOpenErr "boom".toList)).scrollback =
      [] ++ [msgPtyOpen "boom".toList] ∧
    (spawn_shell (initTermState []) (SpawnOutcome.shellSpawnErr "boom".toList)).pty_writer = false ∧
    interrupt (spawn_shell (initTermState []) (SpawnOutcome.writerErr "boom".toList)) =
      spawn_shell (initTermState []) (SpawnOutcome.writerErr "boom".toList) ∧
    (spawn_shell (initTermState []) (SpawnOutcome.readerErr "boom".toList)).pty_writer = true :=
  ⟨rfl,
   (c7_amended_spawn_failures.1 (initTermState []) "boom".toList rfl).1,
   (c7_amended_spawn_failures.2.1 (initTermState []) "boom".toList rfl).2.1,
   (c7_amended_spawn_failures.2.2.1 (initTermState []) "boom".toList rfl).2.2.1,
   (c7_amended_spawn_failures.2.2.2 (initTermState []) "boom".toList).2⟩


theorem execute_command_history_length_le (st : TermState)
    (h : st.command_history.length ≤ 100) :
    (execute_command st).command_history.length ≤ 100 := by
  by_cases h1 : rustTrim st.input_buffer = [] <;>
    by_cases h2 : 100 < st.command_history.length + 1 <;>
      simp [execute_command, writeToPty, h1, h2,
        apply_ite TermState.command_history] <;>
    omega

theorem foldl_submit_history_length_le (cmds : List Str) (st : TermState)
    (h : st.command_history.length ≤ 100) :
    ((cmds.foldl submitCmd st).command_history).length ≤ 100 := by
  induction cmds generalizing st with
  | nil => exact h
  | cons c cs ih =>
    simp only [List.foldl_cons]
    exact ih _ (execute_command_history_length_le _ h)

theorem execute_command_eviction (st : TermState)
    (hlen : st.command_history.length = 100)
    (h1 : rustTrim st.input_buffer ≠ []) :
    (execute_command st).command_history =
      st.command_history.tail ++ [st.input_buffer] := by
  have h2 : 100 < st.command_history.length + 1 := by omega
  simp [execute_command, writeToPty, h1, h2,
    apply_ite TermState.command_history]
  cases hc : st.command_history with
  | nil => rw [hc] at hlen; simp at hlen
  | cons a t => simp

/-- Claim C9: folding any command sequence from the empty panel keeps
the history within 100 entries; one submission from any state within the
cap stays within the cap; and a nonempty submission from a state exactly
at the cap evicts the oldest entry, leaving the tail of the old history
followed by the new command. -/
theorem c9_history_cap :
    (∀ cmds : List Str,
      ((cmds.foldl submitCmd (initTermState [])).command_history).length ≤ 100)
    ∧ (∀ st : TermState, st.command_history.length ≤ 100 →
        (execute_command st).command_history.length ≤ 100)
    ∧ (∀ st : TermState, st.command_history.length = 100 →
        rustTrim st.input_buffer ≠ [] →
        (execute_command st).command_history =
          st.command_history.tail ++ [st.input_buffer]) :=
  ⟨fun cmds => foldl_submit_history_length_le cmds _ (by simp [initTermState]),
   execute_command_history_length_le,
   execute_command_eviction⟩

theorem c9_history_cap_witness :
    demoFullHistory.command_history.length ≤ 100 ∧
    (execute_command demoFullHistory).command_history.length ≤ 100 ∧
    demoFullHistory.command_history.length = 100 ∧
    rustTrim demoFullHistory.input_buffer ≠ [] ∧
    (execute_command demoFullHistory).command_history =
      demoFullHistory.command_history.tail ++ [demoFullHistory.input_buffer] :=
  ⟨by decide, c9_history_cap.2.1 _ (by decide), by decide, by decide,
   c9_history_cap.2.2 _ (by decide) (by decide)⟩


theorem histInv_iff (st : TermState) :
    histInv st = true ↔
      ∀ i, st.history_index = some i → i < st.command_history.length := by
  unfold histInv
  cases h : st.history_index <;> simp [h]

theorem histInv_of_none (st : TermState) (h : st.history_index = none) :
    histInv st = true := by
  unfold histInv
  rw [h]

theorem histInv_writeToPty (st : TermState) (b : Str) :
    histInv (writeToPty st b) = histInv st := by
  unfold writeToPty
  split <;> rfl

theorem prev_command_history (st : TermState) :
    (history_prev st).command_history = st.command_history := by
  unfold history_prev
  split
  · rfl
  · split
    · rfl
    · split <;> rfl

theorem next_command_history (st : TermState) :
    (history_next st).command_history = st.command_history := by
  unfold history_next
  split
  · split <;> rfl
  · rfl

theorem execute_preserves_histInv (st : TermState) (h : histInv st = true) :
    histInv (execute_command st) = true := by
  by_cases h1 : rustTrim st.input_buffer = []
  · have e : execute_command st = writeToPty st "\n".toList := by
      unfold execute_command
      simp [h1]
    rw [e, histInv_writeToPty]
    exact h
  · exact histInv_of_none _ (execute_command_history_index st h1)

theorem prev_preserves_histInv (st : TermState) (h : histInv st = true) :
    histInv (history_prev st) = true := by
  rw [histInv_iff] at h ⊢
  intro i hi
  rw [prev_command_history]
  unfold history_prev at hi
  by_cases he : st.command_history.isEmpty
  · rw [if_pos he] at hi
    exact h i hi
  · rw [if_neg he] at hi
    have hne : st.command_history ≠ [] := by
      simpa [List.isEmpty_iff] using he
    have hpos : 0 < st.command_history.length := List.length_pos.mpr hne
    cases hidx : st.history_index with
    | none =>
      rw [hidx] at hi
      dsimp only at hi
      injection hi with hie
      omega
    | some idx =>
      rw [hidx] at hi
      dsimp only at hi
      rw [apply_ite TermState.history_index] at hi
      by_cases hgt : idx > 0
      · rw [if_pos hgt] at hi
        dsimp only at hi
        injection hi with hie
        have := h idx hidx
        omega
      · rw [if_neg hgt] at hi
        exact h i hi

theorem next_preserves_histInv (st : TermState) (h : histInv st = true) :
    histInv (history_next st) = true := by
  rw [histInv_iff] at h ⊢
  intro i hi
  rw [next_command_history]
  unfold history_next at hi
  cases hidx : st.history_index with
  | none =>
    rw [hidx] at hi
    exact h i hi
  | some idx =>
    rw [hidx] at hi
    dsimp only at hi
    rw [apply_ite TermState.history_index] at hi
    by_cases hlt : idx < st.command_history.length - 1
    · rw [if_pos hlt] at hi
      dsimp only at hi
      injection hi with hie
      omega
    · rw [if_neg hlt] at hi
      dsimp only at hi
      exact absurd hi (by simp)

/-- Claim C10: the cursor invariant - an installed history cursor is a
valid index into a nonempty command history - holds in the initial panel
state and is preserved by command submission, recall-previous and
recall-next, so the index arithmetic and history indexing of the recall
operations stay in bounds. -/
theorem c10_cursor_invariant :
    histInv (initTermState []) = true
    ∧ (∀ st : TermState, histInv st = true → histInv (execute_command st) = true)
    ∧ (∀ (st : TermState) (cmd : Str), histInv st = true →
        histInv (submitCmd st cmd) = true)
    ∧ (∀ st : TermState, histInv st = true → histInv (history_prev st) = true)
    ∧ (∀ st : TermState, histInv st = true → histInv (history_next st) = true)
    ∧ (∀ (st : TermState) (i : Nat), histInv st = true →
        st.history_index = some i →
        st.command_history ≠ [] ∧ i < st.command_history.length) := by
  refine ⟨rfl, execute_preserves_histInv, ?_, prev_preserves_histInv,
    next_preserves_histInv, ?_⟩
  · intro st cmd h
    apply execute_preserves_histInv
    rw [histInv_iff] at h ⊢
    exact h
  · intro st i h hi
    have hlt := (histInv_iff st).mp h i hi
    refine ⟨?_, hlt⟩
    intro hnil
    rw [hnil] at hlt
    simp at hlt

theorem c10_cursor_invariant_witness :
    histInv histDemo3 = true ∧
    histInv (execute_command histDemo3) = true ∧
    histInv (submitCmd histDemo3 "cat".toList) = true ∧
    histInv (history_prev histDemo3) = true ∧
    histInv (history_next (history_prev histDemo3)) = true ∧
    (history_prev histDemo3).history_index = some 2 ∧
    (history_prev histDemo3).command_history ≠ [] ∧
    2 < (history_prev histDemo3).command_history.length :=
  ⟨by decide,
   c10_cursor_invariant.2.1 _ (by decide),
   c10_cursor_invariant.2.2.1 _ _ (by decide),
   c10_cursor_invariant.2.2.2.1 _ (by decide),
   c10_cursor_invariant.2.2.2.2.1 _ (c10_cursor_invariant.2.2.2.1 _ (by decide)),
   by decide,
   (c10_cursor_invariant.2.2.2.2.2 _ 2 (by decide) (by decide)).1,
   (c10_cursor_invariant.2.2.2.2.2 _ 2 (by decide) (by decide)).2⟩

end Rustfm
